import Mathlib

/-!
Verification of the PTT crawler core (`src/ptt_crawler/crawler.py`).

The crawler fetches HTML pages, parses them with BeautifulSoup, and
assembles a table of validated post records.  We embed the code
shallowly:

* a parsed document is a tree of `Node` values (element tags with an
  `id` attribute, a `class` attribute, an `href` attribute and
  children, or a text node); a `Page` (a `BeautifulSoup` object) is
  the list of top-level nodes of the document;
* `find_all(tag, class_=c)` is `findAllList` (document / preorder
  traversal), `find` is its `head?`;
* `Tag.text` is `nodeText` (concatenation of the descendant text
  nodes in document order), `str.strip()` is `strip`;
* the network is a `World`, a fixed mapping from URLs to the outcome
  of `_get_soup_safe` (`none` models any fetch failure absorbed by
  `_get_soup_safe`); the retry mechanics of `_get_soup` itself are
  modelled separately and more finely for the retry claims;
* `decompose()` (destructive element removal) is modelled by explicit
  state passing: `_process_content` returns both the record and the
  mutated document.
-/

mutual
/-- A node of a parsed HTML document: an element (tag name, optional
`id` attribute, `class` attribute string, optional `href` attribute,
children) or a text node.  A mutual inductive (rather than `List Node`
children) so that all document traversals are mutual structural
recursions the kernel can evaluate. -/
inductive Node where
  | elem (tag : String) (idAttr : Option String) (className : String)
      (href : Option String) (children : NodeList)
  | text (s : String)
inductive NodeList where
  | nil
  | cons (n : Node) (ns : NodeList)
end

/-- Build a `NodeList` from a `List Node` (concrete-page syntax). -/
def NodeList.ofList : List Node → NodeList
  | [] => .nil
  | n :: ns => .cons n (NodeList.ofList ns)

/-- A parsed document (`BeautifulSoup` value): its top-level nodes. -/
def Page : Type := NodeList

/-- Children of a node (a text node has none). -/
def childrenOf : Node → NodeList
  | .elem _ _ _ _ cs => cs
  | .text _ => .nil

/-- The `href` attribute of a node (`Tag.get ("href", None)`). -/
def hrefOf : Node → Option String
  | .elem _ _ _ h _ => h
  | .text _ => none

mutual
/-- `find_all`: all element nodes satisfying `p`, in document
(preorder) order.  BeautifulSoup's `find_all` on a tag searches its
descendants, so callers pass `childrenOf`. -/
def findAllNode (p : Node → Bool) : Node → List Node
  | Node.text _ => []
  | Node.elem t i c h cs =>
      (if p (Node.elem t i c h cs) then [Node.elem t i c h cs] else []) ++
        findAllList p cs
def findAllList (p : Node → Bool) : NodeList → List Node
  | .nil => []
  | .cons n ns => findAllNode p n ++ findAllList p ns
end

mutual
/-- Concatenated descendant text, in document order (`Tag.text`). -/
def nodeText : Node → String
  | Node.text s => s
  | Node.elem _ _ _ _ cs => nodeTextList cs
def nodeTextList : NodeList → String
  | .nil => ""
  | .cons n ns => nodeText n ++ nodeTextList ns
end

/-- Remove from a forest every element node satisfying `p` together
with its subtree, recursively (the net effect of `decompose()` on
every element found by the `find_all` snapshots). -/
def pruneList (p : Node → Bool) : NodeList → NodeList
  | .nil => .nil
  | .cons (Node.text s) ns => .cons (Node.text s) (pruneList p ns)
  | .cons (Node.elem t i c h cs) ns =>
      if p (Node.elem t i c h cs) then pruneList p ns
      else .cons (Node.elem t i c h (pruneList p cs)) (pruneList p ns)

/-- Replace the first (document-order) element node satisfying `p`
with `new`; the boolean reports whether a replacement happened. -/
def replaceFirstList (p : Node → Bool) (new : Node) :
    NodeList → NodeList × Bool
  | .nil => (.nil, false)
  | .cons (Node.text s) ns =>
      let r := replaceFirstList p new ns
      (.cons (Node.text s) r.1, r.2)
  | .cons (Node.elem t i c h cs) ns =>
      if p (Node.elem t i c h cs) then (.cons new ns, true)
      else
        let rc := replaceFirstList p new cs
        if rc.2 then (.cons (Node.elem t i c h rc.1) ns, true)
        else
          let r := replaceFirstList p new ns
          (.cons (Node.elem t i c h cs) r.1, r.2)

/-- `startsWithL pat l` : `pat` is an initial segment of `l`. -/
def startsWithL : List Char → List Char → Bool
  | [], _ => true
  | _ :: _, [] => false
  | p :: ps, c :: cs => p == c && startsWithL ps cs

/-- `containsSubL needle hay` : `needle` occurs as a contiguous
substring of `hay` (Python's `needle in hay`). -/
def containsSubL (needle : List Char) : List Char → Bool
  | [] => needle.isEmpty
  | c :: cs => startsWithL needle (c :: cs) || containsSubL needle cs

/-- Python `needle in hay` on strings. -/
def containsStr (hay needle : String) : Bool :=
  containsSubL needle.data hay.data

/-- Python `str.strip()`: drop leading and trailing whitespace. -/
def stripChars (cs : List Char) : List Char :=
  ((cs.dropWhile Char.isWhitespace).reverse.dropWhile Char.isWhitespace).reverse

/-- Python `str.strip()` on strings. -/
def strip (s : String) : String := ⟨stripChars s.data⟩

/-- One comment of a post, as built by `_get_comments`. -/
structure CommentRec where
  push_tag : Option String
  userid : String
  content : Option String
  ipdatetime : String
deriving DecidableEq, Repr

/-- One post record, the dict built by `_process_content`.  The
`content` field is always a string in the code (`content_text`), the
metadata fields start as `None` and stay so when their metaline is
absent. -/
structure PostRec where
  author : Option String
  title : Option String
  time : Option String
  content : String
  url : String
  subforum : String
  comments : List CommentRec
deriving DecidableEq, Repr

/-- The outcome of one call to `crawl`: either an uncaught exception
escapes, or the function returns (`None`, or the data frame rows). -/
inductive CrawlOutcome where
  | raises
  | ret (result : Option (List PostRec))
deriving DecidableEq, Repr

/-- The network, as seen through `_get_soup_safe`: a fixed mapping
from a URL to the parsed page, or `none` for any failure that
`_get_soup_safe` absorbs (404, exhausted retries, parse error). -/
def World : Type := String → Option Page

def MAIN_URL : String := "https://www.ptt.cc/"

/-- `_get_soup_safe`: in the `World` model, just look the URL up
(the retry/exception mechanics of `_get_soup` are modelled separately
by `getSoupRun`). -/
def getSoupSafe (w : World) (url : String) : Option Page := w url

/-- Element predicates for the selectors the crawler uses. -/
def isTagClass (tag className : String) : Node → Bool
  | .elem t _ c _ _ => t == tag && c == className
  | .text _ => false

def isBtnWide : Node → Bool := isTagClass "a" "btn wide"

def isTitleDiv : Node → Bool := isTagClass "div" "title"

def isAnchor : Node → Bool
  | .elem t _ _ _ _ => t == "a"
  | .text _ => false

def isMainContent : Node → Bool
  | .elem t i _ _ _ => t == "div" && i == some "main-content"
  | .text _ => false

def isMetalineDiv : Node → Bool := isTagClass "div" "article-metaline"

def isMetaTagSpan : Node → Bool := isTagClass "span" "article-meta-tag"

def isMetaValueSpan : Node → Bool := isTagClass "span" "article-meta-value"

def isPushDiv : Node → Bool := isTagClass "div" "push"

def isPushTagSpan : Node → Bool := isTagClass "span" "push-tag"

def isPushUseridSpan : Node → Bool := isTagClass "span" "push-userid"

def isPushContentSpan : Node → Bool := isTagClass "span" "push-content"

def isPushIpdatetimeSpan : Node → Bool := isTagClass "span" "push-ipdatetime"

/-- The elements `_process_content` decomposes: the metaline divs, the
push (comment) divs, and the `f2` / `f6` decoration spans. -/
def isDecomposed (n : Node) : Bool :=
  isMetalineDiv n || isPushDiv n || isTagClass "span" "f2" n ||
    isTagClass "span" "f6" n

/-- The body of the `_get_comments` loop for one push `element`:
append the element to the scanned-element list, and append the
comment record only when both the userid span and the ipdatetime
span are found. -/
def getCommentsStep (acc : List CommentRec × List Node) (element : Node) :
    List CommentRec × List Node :=
  let push_tag := (findAllList isPushTagSpan (childrenOf element)).head?
  let userid := (findAllList isPushUseridSpan (childrenOf element)).head?
  let content := (findAllList isPushContentSpan (childrenOf element)).head?
  let ipdatetime :=
    (findAllList isPushIpdatetimeSpan (childrenOf element)).head?
  match userid, ipdatetime with
  | some u, some ip =>
      (acc.1 ++ [{ push_tag := push_tag.map (fun n => strip (nodeText n)),
                   userid := strip (nodeText u),
                   content := content.map (fun n => strip (nodeText n)),
                   ipdatetime := strip (nodeText ip) }],
       acc.2 ++ [element])
  | _, _ => (acc.1, acc.2 ++ [element])

/-- `_get_comments`: scan the push divs of the main-content container
in document order. -/
def getComments (main_content : Node) : List CommentRec × List Node :=
  (findAllList isPushDiv (childrenOf main_content)).foldl getCommentsStep
    ([], [])

/-- The metaline scan of `_process_content`: fold over the metaline
divs, matching the tag text and overwriting the corresponding field
(`title`, `time`, `author`); unrecognized tags and metalines missing
either span are skipped. -/
def scanMetalines (metalines : List Node) :
    Option String × Option String × Option String :=
  metalines.foldl
    (fun acc metaline =>
      match (findAllList isMetaTagSpan (childrenOf metaline)).head?,
        (findAllList isMetaValueSpan (childrenOf metaline)).head? with
      | some tag_span, some value_span =>
          let tag_text := strip (nodeText tag_span)
          let value_text := strip (nodeText value_span)
          if tag_text == "標題" then (some value_text, acc.2.1, acc.2.2)
          else if tag_text == "時間" then (acc.1, some value_text, acc.2.2)
          else if tag_text == "作者" then (acc.1, acc.2.1, some value_text)
          else acc
      | _, _ => acc)
    (none, none, none)

/-- `_process_content`: find the main-content container, scan the
metalines, extract the comments, decompose the metaline / comment /
decoration elements, and build the record from the remaining text.
The second component is the mutated document (the in-place
`decompose` calls, made explicit). -/
def processContent (page_url subforum : String) (bs_content : Page) :
    Option (PostRec × Page) :=
  match (findAllList isMainContent bs_content).head? with
  | none => none
  | some main_content =>
      let article_metaline := findAllList isMetalineDiv (childrenOf main_content)
      let tta := scanMetalines article_metaline
      let comments := (getComments main_content).1
      let pruned : Node :=
        match main_content with
        | .elem t i c h cs => .elem t i c h (pruneList isDecomposed cs)
        | .text s => .text s
      let content_text := strip (nodeText pruned)
      some ({ author := tta.2.2, title := tta.1, time := tta.2.1,
              content := content_text, url := page_url,
              subforum := subforum, comments := comments },
            (replaceFirstList isMainContent pruned bs_content).1)

/-- `_validate_contents`, the Content Validator. -/
def validateContents (contents : PostRec) : Bool :=
  let content_text := contents.content
  let benchmark_len := 10
  match contents.title, contents.time with
  | some title, some _ =>
      if (["公告", "新聞", "轉錄", "轉載"].any fun k => containsStr title k)
      then false
      else if content_text.length < benchmark_len then false
      else if (["轉錄", "轉載"].any fun k => containsStr content_text k)
      then false
      else true
  | _, _ => false

/-- `_get_content`: fetch one post page, process it, and keep the
record only if it validates. -/
def getContent (w : World) (page_url subforum : String) : Option PostRec :=
  match getSoupSafe w page_url with
  | none => none
  | some content_page =>
      match processContent page_url subforum content_page with
      | none => none
      | some (output, _) =>
          if validateContents output then some output else none

/-- `_get_all_content_urls`: fetch one index page and collect, per
title block, the absolute URL of its first anchor; blocks without an
anchor or without an href are skipped. -/
def getAllContentUrls (w : World) (page_num : Nat) (entry_url : String) :
    Option (List String) :=
  let bulletin_url := entry_url ++ "/index" ++ toString page_num ++ ".html"
  match getSoupSafe w bulletin_url with
  | none => none
  | some bulletin_page =>
      some ((findAllList isTitleDiv bulletin_page).filterMap fun block =>
        match (findAllList isAnchor (childrenOf block)).head? with
        | none => none
        | some a =>
            match hrefOf a with
            | none => none
            | some page_endpoint => some (MAIN_URL ++ page_endpoint))

/-- Digit run to integer (`int(match.group(0))`). -/
def digitsToNat (ds : List Char) : Nat :=
  ds.foldl (fun a c => a * 10 + (c.toNat - 48)) 0

/-- The search `re.search(r"(?<=index)\d+(?=\.html)", s)`: scan left
to right for an occurrence of `index` followed by a nonempty maximal
digit run followed by `.html`, and return that digit run.  (Shorter,
non-maximal digit runs cannot match, because the next character is
then a digit, not `.`.) -/
def extractIndexMatch : List Char → Option (List Char)
  | [] => none
  | c :: cs =>
      if startsWithL "index".data (c :: cs) then
        let after := (c :: cs).drop 5
        let ds := after.takeWhile Char.isDigit
        if ds.isEmpty then extractIndexMatch cs
        else if startsWithL ".html".data (after.drop ds.length) then some ds
        else extractIndexMatch cs
      else extractIndexMatch cs

/-- `_extract_total_pages`: parse the page index out of the
previous-page href; `none` when the pattern does not match or the
parsed count is not positive. -/
def extractTotalPages (final_page_url : String) (subforum : String) :
    Option Nat :=
  match extractIndexMatch final_page_url.data with
  | none => none
  | some ds =>
      let total_pages := digitsToNat ds
      if total_pages ≤ 0 then none else some total_pages

/-- The flattened URL list of the first fan-out: pages `1..n` in
ascending order, each page's non-`None` URL list in document order
(the comprehension over `executor.map`'s results). -/
def collectedUrls (w : World) (entry_url : String) (n : Nat) : List String :=
  (((List.range' 1 n).map
      (fun page_num => getAllContentUrls w page_num entry_url)).filterMap
    id).flatten

/-- The record list of the second fan-out: the non-`None` results of
`_get_content` over the URL list, in that order. -/
def extractedData (w : World) (subforum : String) (urls : List String) :
    List PostRec :=
  (urls.map (fun url => getContent w url subforum)).filterMap id

/-- The tail of `crawl` after pagination discovery: the two fan-out /
join stages.  `executor.map` yields its results in submission order,
so each fan-out is a `map` over the submitted inputs (the
schedule-parametrised equivalence is proved separately). -/
def crawlTail (w : World) (subforum entry_url : String)
    (total_pages : Nat) : CrawlOutcome :=
  let content_urls := collectedUrls w entry_url total_pages
  if content_urls.isEmpty then .ret none
  else
    let data := extractedData w subforum content_urls
    if data.isEmpty then .ret none
    else .ret (some data)

/-- `crawl`: discovery (entry page, previous-page anchor, href, page
count), then the two fan-out stages.  When `_extract_total_pages`
returns `None` the code falls through to `range(1, total_pages + 1)`
with `total_pages = None` and raises an uncaught `TypeError`, modelled
by `CrawlOutcome.raises`. -/
def crawl (w : World) (subforum : String) : CrawlOutcome :=
  let entry_url := MAIN_URL ++ "bbs/" ++ subforum
  match getSoupSafe w entry_url with
  | none => .ret none
  | some init_page =>
      match (findAllList isBtnWide init_page).find?
          (fun block => containsStr (nodeText block) "上頁") with
      | none => .ret none
      | some block =>
          match hrefOf block with
          | none => .ret none
          | some final_page_url =>
              match extractTotalPages final_page_url subforum with
              | none => .raises
              | some total_pages => crawlTail w subforum entry_url total_pages

/-- The outcome of one HTTP attempt inside `_get_soup`:
`requests.get` + `raise_for_status` either yields a parsed page,
raises an `HTTPError` carrying the response status, or raises some
other `RequestException` (timeout, connection error). -/
inductive Attempt where
  | success (p : Page)
  | httpError (status : Nat)
  | requestExc

/-- A transient attempt outcome: anything but success and HTTP 404. -/
def Attempt.transient : Attempt → Bool
  | .success _ => false
  | .httpError s => s != 404
  | .requestExc => true

/-- The exception re-raised by `_get_soup`. -/
inductive FetchErr where
  | http (status : Nat)
  | reqExc
deriving DecidableEq

/-- How `_get_soup` ends: returns a page, re-raises the last
exception, or falls off the loop returning `None` (only possible when
`max_retries = 0`). -/
inductive SoupResult where
  | doc (p : Page)
  | raised (e : FetchErr)
  | noReturn

/-- The error `_get_soup` re-raises for a failing attempt. -/
def Attempt.toErr : Attempt → FetchErr
  | .success _ => .reqExc
  | .httpError s => .http s
  | .requestExc => .reqExc

/-- The retry loop of `_get_soup`.  `oracle i` is the outcome of the
attempt with index `i`, `backoff i` the value drawn by
`random.uniform(2, 4)` before retrying attempt `i + 1`.  The result
carries the attempts performed and the sleeps done, in order.  Called
with `attempt = 0` and `rem = max_retries` (the loop
`for attempt in range(max_retries)`). -/
def getSoupRun (oracle : Nat → Attempt) (backoff : Nat → ℚ)
    (max_retries : Nat) : Nat → Nat → SoupResult × Nat × List ℚ
  | _, 0 => (.noReturn, 0, [])
  | attempt, rem + 1 =>
      match oracle attempt with
      | .success p => (.doc p, 1, [])
      | .httpError s =>
          if s = 404 then (.raised (.http s), 1, [])
          else if attempt < max_retries - 1 then
            let r := getSoupRun oracle backoff max_retries (attempt + 1) rem
            (r.1, r.2.1 + 1, backoff attempt :: r.2.2)
          else (.raised (.http s), 1, [])
      | .requestExc =>
          if attempt < max_retries - 1 then
            let r := getSoupRun oracle backoff max_retries (attempt + 1) rem
            (r.1, r.2.1 + 1, backoff attempt :: r.2.2)
          else (.raised .reqExc, 1, [])

/-- `_get_soup url max_retries` under the attempt/backoff oracles. -/
def getSoup (oracle : Nat → Attempt) (backoff : Nat → ℚ)
    (max_retries : Nat) : SoupResult × Nat × List ℚ :=
  getSoupRun oracle backoff max_retries 0 max_retries

/-- The semantics of `list(executor.map(f, xs))` under an explicit
completion schedule: the workers may finish the tasks in any order
`σ` (a permutation of the task indices), each task `i` computing
`f xs[i]` from the fixed inputs alone; `executor.map` then yields the
results in submission order. -/
def threadJoin {α β : Type} (f : α → β) (xs : List α) (σ : List Nat) :
    List β :=
  let results := σ.filterMap (fun i => (xs[i]?).map (fun x => (i, f x)))
  (List.range xs.length).filterMap (fun i => results.lookup i)

/-- `crawlTail` with the two `ThreadPoolExecutor` fan-outs run under
explicit completion schedules `sch₁` (pages) and `sch₂` (posts):
`sch n` is the completion order of a fan-out of `n` tasks. -/
def crawlTailSched (w : World) (subforum entry_url : String)
    (total_pages : Nat) (sch₁ sch₂ : Nat → List Nat) : CrawlOutcome :=
  let pages := List.range' 1 total_pages
  let content_urls :=
    ((threadJoin (fun page_num => getAllContentUrls w page_num entry_url)
        pages (sch₁ pages.length)).filterMap id).flatten
  if content_urls.isEmpty then .ret none
  else
    let data :=
      (threadJoin (fun url => getContent w url subforum) content_urls
          (sch₂ content_urls.length)).filterMap id
    if data.isEmpty then .ret none
    else .ret (some data)

/-- `crawl` with explicit completion schedules for the two fan-outs. -/
def crawlSched (w : World) (subforum : String) (sch₁ sch₂ : Nat → List Nat) :
    CrawlOutcome :=
  let entry_url := MAIN_URL ++ "bbs/" ++ subforum
  match getSoupSafe w entry_url with
  | none => .ret none
  | some init_page =>
      match (findAllList isBtnWide init_page).find?
          (fun block => containsStr (nodeText block) "上頁") with
      | none => .ret none
      | some block =>
          match hrefOf block with
          | none => .ret none
          | some final_page_url =>
              match extractTotalPages final_page_url subforum with
              | none => .raises
              | some total_pages =>
                  crawlTailSched w subforum entry_url total_pages sch₁ sch₂

/-! Concrete fixtures: a small world `w0` on which the whole pipeline
succeeds (used to witness the pipeline theorems and to exhibit
behaviour on real inputs), a world `wBad` whose previous-page href
carries no parseable page index, and concrete oracles/schedules. -/

/-- The entry page of `w0`: one wide-button anchor labelled `‹ 上頁`
pointing at `index1.html`. -/
def entryPage0 : Page := NodeList.ofList
  [Node.elem "a" none "btn wide" (some "/bbs/test/index1.html")
    (NodeList.ofList [Node.text "‹ 上頁"])]

/-- The single index page of `w0`: one title block with one anchor. -/
def bulletinPage0 : Page := NodeList.ofList
  [Node.elem "div" none "title" none (NodeList.ofList
    [Node.elem "a" none "" (some "bbs/test/M1.html")
      (NodeList.ofList [Node.text "a post"])])]

/-- The single post page of `w0`: title and time metalines and a body
whose text contains the announcement keyword `公告`. -/
def postPage0 : Page := NodeList.ofList
  [Node.elem "div" (some "main-content") "" none (NodeList.ofList
    [Node.elem "div" none "article-metaline" none (NodeList.ofList
      [Node.elem "span" none "article-meta-tag" none
        (NodeList.ofList [Node.text "標題"]),
       Node.elem "span" none "article-meta-value" none
        (NodeList.ofList [Node.text "hello"])]),
     Node.elem "div" none "article-metaline" none (NodeList.ofList
      [Node.elem "span" none "article-meta-tag" none
        (NodeList.ofList [Node.text "時間"]),
       Node.elem "span" none "article-meta-value" none
        (NodeList.ofList [Node.text "now"])]),
     Node.text "0123456789公告"])]

/-- A fixed network in which the `test` sub-forum has one index page
listing one post. -/
def w0 : World := fun u =>
  if u = "https://www.ptt.cc/bbs/test" then some entryPage0
  else if u = "https://www.ptt.cc/bbs/test/index1.html" then some bulletinPage0
  else if u = "https://www.ptt.cc/bbs/test/M1.html" then some postPage0
  else none

/-- The record `crawl w0 "test"` produces. -/
def r0 : PostRec :=
  { author := none, title := some "hello", time := some "now",
    content := "0123456789公告", url := "https://www.ptt.cc/bbs/test/M1.html",
    subforum := "test", comments := [] }

/-- An entry page whose previous-page anchor href has no
`index<digits>.html` component. -/
def entryPageBad : Page := NodeList.ofList
  [Node.elem "a" none "btn wide" (some "/bbs/test/last.html")
    (NodeList.ofList [Node.text "‹ 上頁"])]

/-- A world whose pagination discovery fails at page-count parsing. -/
def wBad : World := fun u =>
  if u = "https://www.ptt.cc/bbs/test" then some entryPageBad else none

/-- An entry page whose previous-page href parses to the
non-positive page count 0. -/
def entryPageZero : Page := NodeList.ofList
  [Node.elem "a" none "btn wide" (some "/bbs/test/index0.html")
    (NodeList.ofList [Node.text "‹ 上頁"])]

/-- A world whose discovered page count is not positive. -/
def wZero : World := fun u =>
  if u = "https://www.ptt.cc/bbs/test" then some entryPageZero else none

/-- An entry page with no previous-page anchor at all. -/
def entryPageNoAnchor : Page := NodeList.ofList
  [Node.elem "a" none "btn wide" (some "/bbs/test/index9.html")
    (NodeList.ofList [Node.text "最舊"])]

/-- A world whose entry page lacks the 上頁 navigation anchor. -/
def wNoAnchor : World := fun u =>
  if u = "https://www.ptt.cc/bbs/test" then some entryPageNoAnchor else none

/-- An attempt oracle that always fails transiently. -/
def oracleTrans : Nat → Attempt := fun _ => Attempt.requestExc

/-- An attempt oracle that fails transiently once and then hits 404. -/
def oracle404 : Nat → Attempt := fun i =>
  if i = 1 then Attempt.httpError 404 else Attempt.requestExc

/-- A constant backoff draw of 3 time units (inside `[2, 4]`). -/
def backoff3 : Nat → ℚ := fun _ => 3

/-- The identity completion schedule (pool of size 1: tasks finish in
submission order). -/
def schedId : Nat → List Nat := fun n => List.range n

/-- A reversed completion schedule (e.g. a wide pool whose tasks
finish in reverse submission order). -/
def schedRev : Nat → List Nat := fun n => (List.range n).reverse

/-- The previous-page anchor of `entryPage0` (the block `crawl`'s
discovery loop selects in `w0`). -/
def block0 : Node :=
  Node.elem "a" none "btn wide" (some "/bbs/test/index1.html")
    (NodeList.ofList [Node.text "‹ 上頁"])

/-- The comment record `_get_comments` builds for one push element:
`some` exactly when both the userid span and the ipdatetime span are
found, with the push tag and the content optional. -/
def commentOf (element : Node) : Option CommentRec :=
  match (findAllList isPushUseridSpan (childrenOf element)).head?,
      (findAllList isPushIpdatetimeSpan (childrenOf element)).head? with
  | some u, some ip =>
      some { push_tag := ((findAllList isPushTagSpan
               (childrenOf element)).head?).map (fun n => strip (nodeText n)),
             userid := strip (nodeText u),
             content := ((findAllList isPushContentSpan
               (childrenOf element)).head?).map (fun n => strip (nodeText n)),
             ipdatetime := strip (nodeText ip) }
  | _, _ => none

/-- `indexMatchAt cs ℓ = true` iff the pattern
`(?<=index)\d+(?=\.html)` matches with the literal `index` starting
at offset `ℓ` of `cs` (a decidable description of one occurrence). -/
def indexMatchAt (cs : List Char) (ℓ : Nat) : Bool :=
  startsWithL "index".data (cs.drop ℓ) &&
    (let after := cs.drop (ℓ + 5)
     let ds := after.takeWhile Char.isDigit
     !ds.isEmpty && startsWithL ".html".data (after.drop ds.length))

/-- `postPage0` with an extra leading banner text node: a different
document value with the same main-content subtree. -/
def postPage0b : Page := NodeList.cons (Node.text "banner") postPage0

/-! Theorems. -/

/-- Characterization of the Content Validator: a candidate is
accepted exactly when title and time are present, the title avoids
all four exclusion keywords, the content is at least 10 characters
long, and the content avoids the two repost markers. -/
lemma validateContents_iff (c : PostRec) :
    validateContents c = true ↔
      c.title ≠ none ∧ c.time ≠ none ∧
      (∀ t, c.title = some t →
        ∀ k ∈ (["公告", "新聞", "轉錄", "轉載"] : List String),
          containsStr t k = false) ∧
      10 ≤ c.content.length ∧
      (∀ k ∈ (["轉錄", "轉載"] : List String),
        containsStr c.content k = false) := by
  unfold validateContents
  cases ht : c.title with
  | none => simp [ht]
  | some t =>
      cases hts : c.time with
      | none => simp [ht, hts]
      | some ts =>
          simp only [ht, hts, ne_eq, reduceCtorEq, not_false_eq_true,
            true_and, Option.some.injEq, forall_eq']
          split_ifs with h1 h2 h3
          · simp only [false_iff]
            intro hc
            rw [List.any_eq_true] at h1
            obtain ⟨k, hk, hck⟩ := h1
            have := hc.1 k hk
            rw [this] at hck
            exact Bool.false_ne_true hck
          · simp only [false_iff]
            intro hc
            omega
          · simp only [false_iff]
            intro hc
            rw [List.any_eq_true] at h3
            obtain ⟨k, hk, hck⟩ := h3
            have := hc.2.2 k hk
            rw [this] at hck
            exact Bool.false_ne_true hck
          · simp only [true_iff]
            refine ⟨?_, by omega, ?_⟩
            · intro k hk
              rw [List.any_eq_true] at h1
              push_neg at h1
              simpa using h1 k hk
            · intro k hk
              rw [List.any_eq_true] at h3
              push_neg at h3
              simpa using h3 k hk

/-- C1: the Content Validator accepts a candidate record if and only
if all four rules hold: title and time both non-null; the title free
of the exclusion keywords 公告, 新聞, 轉錄, 轉載; the content string
of length at least 10; and the content free of the repost markers
轉錄 and 轉載.  The boolean result is the acceptance; the source
evaluates the rules in that order, the first failure returning
`false`, which the iff subsumes. -/
theorem C1_validator_accepts_iff (c : PostRec) :
    validateContents c = true ↔
      c.title ≠ none ∧ c.time ≠ none ∧
      (∀ t, c.title = some t →
        ∀ k ∈ (["公告", "新聞", "轉錄", "轉載"] : List String),
          containsStr t k = false) ∧
      10 ≤ c.content.length ∧
      (∀ k ∈ (["轉錄", "轉載"] : List String),
        containsStr c.content k = false) :=
  validateContents_iff c

/-- One step of the `_get_comments` loop, in closed form. -/
lemma getCommentsStep_eq (acc : List CommentRec × List Node) (e : Node) :
    getCommentsStep acc e = (acc.1 ++ (commentOf e).toList, acc.2 ++ [e]) := by
  unfold getCommentsStep commentOf
  cases h1 : (findAllList isPushUseridSpan (childrenOf e)).head? <;>
    cases h2 : (findAllList isPushIpdatetimeSpan (childrenOf e)).head? <;>
      simp [h1, h2]

/-- The `_get_comments` fold, in closed form. -/
lemma getComments_foldl (l : List Node) (a : List CommentRec)
    (b : List Node) :
    l.foldl getCommentsStep (a, b) = (a ++ l.filterMap commentOf, b ++ l) := by
  induction l generalizing a b with
  | nil => simp
  | cons e l ih =>
      rw [List.foldl_cons, getCommentsStep_eq, ih]
      cases hc : commentOf e <;> simp [hc, List.filterMap_cons]

/-- C7: comment extraction scans the push elements in document order;
the returned element list is exactly the scanned push elements; a
comment is retained exactly when both its userid and its ipdatetime
sub-fields are present (`commentOf`, which is `some` precisely when
both spans are found and leaves push tag and content optional); and
a dropped comment never makes the enclosing post's extraction fail:
`_process_content` succeeds exactly when the main-content container
exists, regardless of the comments. -/
theorem C7_comment_extraction (main_content : Node) :
    (getComments main_content).2 =
      findAllList isPushDiv (childrenOf main_content) ∧
    (getComments main_content).1 =
      (findAllList isPushDiv (childrenOf main_content)).filterMap commentOf ∧
    (∀ e : Node, (commentOf e).isSome =
      (((findAllList isPushUseridSpan (childrenOf e)).head?).isSome &&
        ((findAllList isPushIpdatetimeSpan (childrenOf e)).head?).isSome)) ∧
    ∀ (u s : String) (p : Page),
      (processContent u s p).isSome =
        ((findAllList isMainContent p).head?).isSome := by
  refine ⟨?_, ?_, ?_, ?_⟩
  · unfold getComments
    rw [getComments_foldl]
    simp
  · unfold getComments
    rw [getComments_foldl]
    simp
  · intro e
    unfold commentOf
    cases h1 : (findAllList isPushUseridSpan (childrenOf e)).head? <;>
      cases h2 : (findAllList isPushIpdatetimeSpan (childrenOf e)).head? <;>
        simp [h1, h2]
  · intro u s p
    unfold processContent
    cases h : (findAllList isMainContent p).head? <;> simp [h]

/-- C5 counterexample: the Content Extractor is not idempotent on the
same parsed DOM.  `_process_content` decomposes (destructively
removes) the metaline, comment and decoration elements of the
document it is given, so a second application to the same — now
mutated — DOM no longer finds the title and time metalines and
returns a different record: on `postPage0` the first application
yields a record with `title = some "hello"`, the second yields
`title = none`. -/
theorem C5_counterexample :
    (processContent "u" "test" postPage0).map Prod.fst =
      some { r0 with url := "u" } ∧
    ((processContent "u" "test" postPage0).bind
        (fun x => processContent "u" "test" x.2)).map Prod.fst =
      some { r0 with url := "u", title := none, time := none } ∧
    ({ r0 with url := "u" } : PostRec) ≠
      { r0 with url := "u", title := none, time := none } :=
  ⟨by decide, by decide, by decide⟩

/-- C5 amended: the PostRecord computed by the Content Extractor is a
pure function of the document's parsed main-content subtree (and the
URL and subforum identifiers): two applications to documents with the
same main content yield identical records.  The extractor, however,
mutates the DOM it processes, so a second application to the same DOM
object (the mutated document returned by the first) yields a
different record — the original claim holds only when each
application receives a fresh parse. -/
theorem C5_extractor_pure (u s : String) (p₁ p₂ : Page)
    (h : (findAllList isMainContent p₁).head? =
      (findAllList isMainContent p₂).head?) :
    (processContent u s p₁).map Prod.fst =
      (processContent u s p₂).map Prod.fst := by
  unfold processContent
  rw [h]
  cases (findAllList isMainContent p₂).head? <;> rfl

/-- C5 witness: `postPage0` and `postPage0b` differ as documents but
have the same main-content subtree, so extraction agrees on them. -/
theorem C5_extractor_pure_witness :
    (processContent "u" "test" postPage0).map Prod.fst =
      (processContent "u" "test" postPage0b).map Prod.fst :=
  C5_extractor_pure "u" "test" postPage0 postPage0b rfl

/-- C2: when the previous-page anchor's href lacks the
`index<digits>.html` pattern (and likewise when the parsed count is
not positive), `_extract_total_pages` returns `None` (intending to
abort), but `crawl` uses the value unchecked in
`range(1, total_pages + 1)`, so the crawl raises an uncaught
`TypeError` instead of returning no result: on `wBad` (href
`/bbs/test/last.html`) and on `wZero` (href `/bbs/test/index0.html`)
the crawl ends in `raises`, not `ret none`; the earlier discovery
failures (no 上頁 anchor, `wNoAnchor`) do return `None` as claimed. -/
theorem C2_unparseable_pagecount_raises :
    (crawl wBad "test" = CrawlOutcome.raises ∧
      extractTotalPages "/bbs/test/last.html" "test" = none) ∧
    (crawl wZero "test" = CrawlOutcome.raises ∧
      extractTotalPages "/bbs/test/index0.html" "test" = none) ∧
    crawl wNoAnchor "test" = CrawlOutcome.ret none :=
  ⟨⟨by decide, by decide⟩, ⟨by decide, by decide⟩, by decide⟩

/-- A record returned by `_get_content` passed the validator. -/
lemma getContent_validated (w : World) (u s : String) (r : PostRec)
    (h : getContent w u s = some r) : validateContents r = true := by
  unfold getContent at h
  split at h
  · cases h
  · split at h
    · cases h
    · split_ifs at h with hv
      cases h; exact hv

/-- Every row of a successful `crawlTail` comes from `_get_content`. -/
lemma crawlTail_mem (w : World) (s e : String) (n : Nat)
    (rs : List PostRec) (h : crawlTail w s e n = CrawlOutcome.ret (some rs)) :
    ∀ r ∈ rs, ∃ u, getContent w u s = some r := by
  simp only [crawlTail, extractedData] at h
  split_ifs at h with h1 h2
  · cases h
  · cases h
  · simp only [CrawlOutcome.ret.injEq, Option.some.injEq] at h
    subst h
    intro r hr
    simp only [List.mem_filterMap, List.mem_map, id_eq] at hr
    obtain ⟨o, ⟨u, hu, rfl⟩, ho⟩ := hr
    exact ⟨u, ho⟩

/-- Every row of a successful `crawl` comes from `_get_content`. -/
lemma crawl_mem (w : World) (s : String) (rs : List PostRec)
    (h : crawl w s = CrawlOutcome.ret (some rs)) :
    ∀ r ∈ rs, ∃ u, getContent w u s = some r := by
  simp only [crawl] at h
  split at h
  · cases h
  split at h
  · cases h
  split at h
  · cases h
  split at h
  · cases h
  exact crawlTail_mem _ _ _ _ _ h

/-- C4 counterexample: a returned record's `content` may contain the
announcement keyword 公告 — the validator checks the content only
against the repost markers, not against all four exclusion keywords.
On `w0`, `crawl` returns the single record `r0` whose content is
`0123456789公告`. -/
theorem C4_counterexample :
    crawl w0 "test" = CrawlOutcome.ret (some [r0]) ∧
    containsStr r0.content "公告" = true :=
  ⟨by decide, by decide⟩

/-- C4 amended: for every PostRecord in a returned CrawlResult, the
title contains none of the four exclusion keywords (公告, 新聞, 轉錄,
轉載), and the content contains neither repost marker (轉錄, 轉載);
the content is not checked against the announcement and news
keywords. -/
theorem C4_records_keyword_free (w : World) (s : String)
    (rs : List PostRec) (h : crawl w s = CrawlOutcome.ret (some rs)) :
    ∀ r ∈ rs,
      (∀ t, r.title = some t →
        ∀ k ∈ (["公告", "新聞", "轉錄", "轉載"] : List String),
          containsStr t k = false) ∧
      (∀ k ∈ (["轉錄", "轉載"] : List String),
        containsStr r.content k = false) := by
  intro r hr
  obtain ⟨u, hu⟩ := crawl_mem w s rs h r hr
  have hv := getContent_validated w u s r hu
  rw [validateContents_iff] at hv
  exact ⟨hv.2.2.1, hv.2.2.2.2⟩

/-- C4 witness: the invariant applied to the concrete crawl `w0`. -/
theorem C4_records_keyword_free_witness :
    containsStr "hello" "公告" = false ∧
    containsStr r0.content "轉錄" = false :=
  ⟨(((C4_records_keyword_free w0 "test" [r0] (by decide)) r0
      (by decide)).1 "hello" (by decide) "公告" (by decide)),
   (((C4_records_keyword_free w0 "test" [r0] (by decide)) r0
      (by decide)).2 "轉錄" (by decide))⟩

/-- When discovery succeeds with page count `n`, `crawl` runs its
two fan-out stages. -/
lemma crawl_discovery (w : World) (s : String) (init_page : Page)
    (block : Node) (fp : String) (n : Nat)
    (h1 : getSoupSafe w (MAIN_URL ++ "bbs/" ++ s) = some init_page)
    (h2 : (findAllList isBtnWide init_page).find?
        (fun b => containsStr (nodeText b) "上頁") = some block)
    (h3 : hrefOf block = some fp)
    (h4 : extractTotalPages fp s = some n) :
    crawl w s = crawlTail w s (MAIN_URL ++ "bbs/" ++ s) n := by
  simp only [crawl, h1, h2, h3, h4]

/-- C8: per-page and per-post failures are absorbed and only empty
join points abort.  Once discovery yields a page count, the crawl
returns no result exactly when the flattened URL list is empty or
when the set of extracted-and-validated records is empty, and
otherwise returns exactly those records (`collectedUrls` keeps the
non-`None` per-page results; `extractedData` keeps the non-`None`
per-post results). -/
theorem C8_join_aborts (w : World) (s : String) (init_page : Page)
    (block : Node) (fp : String) (n : Nat)
    (h1 : getSoupSafe w (MAIN_URL ++ "bbs/" ++ s) = some init_page)
    (h2 : (findAllList isBtnWide init_page).find?
        (fun b => containsStr (nodeText b) "上頁") = some block)
    (h3 : hrefOf block = some fp)
    (h4 : extractTotalPages fp s = some n) :
    (collectedUrls w (MAIN_URL ++ "bbs/" ++ s) n = [] →
      crawl w s = CrawlOutcome.ret none) ∧
    (collectedUrls w (MAIN_URL ++ "bbs/" ++ s) n ≠ [] →
      extractedData w s (collectedUrls w (MAIN_URL ++ "bbs/" ++ s) n) = [] →
      crawl w s = CrawlOutcome.ret none) ∧
    (collectedUrls w (MAIN_URL ++ "bbs/" ++ s) n ≠ [] →
      extractedData w s (collectedUrls w (MAIN_URL ++ "bbs/" ++ s) n) ≠ [] →
      crawl w s = CrawlOutcome.ret
        (some (extractedData w s
          (collectedUrls w (MAIN_URL ++ "bbs/" ++ s) n)))) := by
  rw [crawl_discovery w s init_page block fp n h1 h2 h3 h4]
  simp only [crawlTail]
  refine ⟨?_, ?_, ?_⟩
  · intro hu
    simp [hu]
  · intro hu hd
    simp [hu, hd]
  · intro hu hd
    simp [hu, hd]

/-- C8 witness: on `w0` both joins are nonempty and the crawl
returns exactly the extracted records. -/
theorem C8_join_aborts_witness :
    crawl w0 "test" = CrawlOutcome.ret
      (some (extractedData w0 "test"
        (collectedUrls w0 (MAIN_URL ++ "bbs/" ++ "test") 1))) :=
  (C8_join_aborts w0 "test" entryPage0 block0 "/bbs/test/index1.html" 1
    rfl rfl rfl rfl).2.2 (by decide) (by decide)

/-- C9: URL collection is schedule-independent.  The fan-out maps
the pure `_get_all_content_urls` over the index pages; processing the
pages in any order (any permutation — pool size 1, pool size 20, or
any interleaving) yields a permutation of the flattened URL list and
hence the same set of collected URLs. -/
theorem C9_collect_schedule_independent (w : World) (entry_url : String)
    (pages₁ pages₂ : List Nat) (h : pages₁.Perm pages₂) :
    ((((pages₁.map
        (fun p => getAllContentUrls w p entry_url)).filterMap id).flatten).Perm
      (((pages₂.map
        (fun p => getAllContentUrls w p entry_url)).filterMap id).flatten)) ∧
    (((pages₁.map
        (fun p => getAllContentUrls w p entry_url)).filterMap id).flatten).toFinset =
      (((pages₂.map
        (fun p => getAllContentUrls w p entry_url)).filterMap id).flatten).toFinset := by
  have hp :=
    ((h.map (fun p => getAllContentUrls w p entry_url)).filterMap id).flatten
  exact ⟨hp, List.toFinset_eq_of_perm _ _ hp⟩

/-- C9 witness: collecting pages `[1, 2]` and `[2, 1]` of `w0` gives
the same URL set. -/
theorem C9_collect_schedule_independent_witness :
    ((([1, 2].map (fun p =>
        getAllContentUrls w0 p "https://www.ptt.cc/bbs/test")).filterMap
      id).flatten).toFinset =
    ((([2, 1].map (fun p =>
        getAllContentUrls w0 p "https://www.ptt.cc/bbs/test")).filterMap
      id).flatten).toFinset :=
  (C9_collect_schedule_independent w0 "https://www.ptt.cc/bbs/test"
    [1, 2] [2, 1] (by decide)).2

/-- The retry loop under all-transient failures: it performs every
remaining attempt, sleeps once between consecutive attempts, and
re-raises the error of the last attempt. -/
lemma getSoupRun_transient (oracle : Nat → Attempt) (backoff : Nat → ℚ)
    (mr : Nat) :
    ∀ rem attempt, 1 ≤ rem → attempt + rem = mr →
      (∀ i, attempt ≤ i → i < mr → (oracle i).transient = true) →
      getSoupRun oracle backoff mr attempt rem =
        (SoupResult.raised ((oracle (mr - 1)).toErr), rem,
          (List.range' attempt (rem - 1)).map backoff) := by
  intro rem
  induction rem with
  | zero => intro attempt h1 _ _; omega
  | succ r ih =>
      intro attempt h1 h2 h3
      have htr := h3 attempt (Nat.le_refl _) (by omega)
      cases ho : oracle attempt with
      | success p => rw [ho] at htr; simp [Attempt.transient] at htr
      | httpError s =>
          rw [ho] at htr
          simp only [Attempt.transient, bne_iff_ne, ne_eq] at htr
          simp only [getSoupRun, ho]
          rw [if_neg htr]
          cases r with
          | zero =>
              have ha : mr - 1 = attempt := by omega
              rw [if_neg (by omega : ¬ attempt < mr - 1), ha, ho]
              simp [Attempt.toErr, List.range']
          | succ r' =>
              rw [if_pos (by omega : attempt < mr - 1)]
              rw [ih (attempt + 1) (by omega) (by omega)
                (fun i hi hi2 => h3 i (by omega) hi2)]
              simp [List.range'_succ]
      | requestExc =>
          simp only [getSoupRun, ho]
          cases r with
          | zero =>
              have ha : mr - 1 = attempt := by omega
              rw [if_neg (by omega : ¬ attempt < mr - 1), ha, ho]
              simp [Attempt.toErr, List.range']
          | succ r' =>
              rw [if_pos (by omega : attempt < mr - 1)]
              rw [ih (attempt + 1) (by omega) (by omega)
                (fun i hi hi2 => h3 i (by omega) hi2)]
              simp [List.range'_succ]

/-- The retry loop hitting HTTP 404 at attempt `k` after transient
failures: it stops right there, performing `k + 1` attempts. -/
lemma getSoupRun_404 (oracle : Nat → Attempt) (backoff : Nat → ℚ)
    (mr : Nat) :
    ∀ rem attempt k, attempt + rem = mr → attempt ≤ k → k < mr →
      (∀ i, attempt ≤ i → i < k → (oracle i).transient = true) →
      oracle k = Attempt.httpError 404 →
      getSoupRun oracle backoff mr attempt rem =
        (SoupResult.raised (FetchErr.http 404), k - attempt + 1,
          (List.range' attempt (k - attempt)).map backoff) := by
  intro rem
  induction rem with
  | zero => intro attempt k h2 hk1 hk2 _ _; omega
  | succ r ih =>
      intro attempt k h2 hk1 hk2 hpre h404
      rcases Nat.eq_or_lt_of_le hk1 with rfl | hlt
      · simp only [getSoupRun, h404]
        simp [List.range']
      · have htr := hpre attempt (Nat.le_refl _) hlt
        have hrec : attempt < mr - 1 := by omega
        cases ho : oracle attempt with
        | success p => rw [ho] at htr; simp [Attempt.transient] at htr
        | httpError s =>
            rw [ho] at htr
            simp only [Attempt.transient, bne_iff_ne, ne_eq] at htr
            simp only [getSoupRun, ho]
            rw [if_neg htr, if_pos hrec]
            rw [ih (attempt + 1) k (by omega) (by omega) hk2
              (fun i hi hi2 => hpre i (by omega) hi2) h404]
            have hr : k - attempt = (k - (attempt + 1)) + 1 := by omega
            rw [hr, List.range'_succ]
            simp
        | requestExc =>
            simp only [getSoupRun, ho]
            rw [if_pos hrec]
            rw [ih (attempt + 1) k (by omega) (by omega) hk2
              (fun i hi hi2 => hpre i (by omega) hi2) h404]
            have hr : k - attempt = (k - (attempt + 1)) + 1 := by omega
            rw [hr, List.range'_succ]
            simp

/-- C3: for `max_retries ≥ 1`, a fetch whose every attempt fails
transiently (timeout, connection error, or a non-404 HTTP error)
performs exactly `max_retries` attempts, sleeps the drawn
`random.uniform(2, 4)` backoff (a value in `[2, 4]`) between
consecutive attempts, and re-raises the final transient failure;
whereas a fetch whose attempt `k` hits HTTP 404 (after transient
failures before it) raises immediately at attempt `k + 1` with no
further attempt. -/
theorem C3_retry_contract (oracle oracle₂ : Nat → Attempt)
    (backoff : Nat → ℚ) (mr mr₂ k : Nat)
    (hmr : 1 ≤ mr)
    (htrans : ∀ i, i < mr → (oracle i).transient = true)
    (hback : ∀ i, 2 ≤ backoff i ∧ backoff i ≤ 4)
    (hk : k < mr₂)
    (h404 : oracle₂ k = Attempt.httpError 404)
    (hpre : ∀ i, i < k → (oracle₂ i).transient = true) :
    (getSoup oracle backoff mr =
        (SoupResult.raised ((oracle (mr - 1)).toErr), mr,
          (List.range (mr - 1)).map backoff) ∧
      ∀ q ∈ (List.range (mr - 1)).map backoff, 2 ≤ q ∧ q ≤ 4) ∧
    getSoup oracle₂ backoff mr₂ =
      (SoupResult.raised (FetchErr.http 404), k + 1,
        (List.range k).map backoff) := by
  refine ⟨⟨?_, ?_⟩, ?_⟩
  · unfold getSoup
    rw [getSoupRun_transient oracle backoff mr mr 0 (by omega) (by omega)
      (fun i _ hi2 => htrans i hi2)]
    rw [List.range_eq_range']
  · intro q hq
    simp only [List.mem_map] at hq
    obtain ⟨i, _, rfl⟩ := hq
    exact hback i
  · unfold getSoup
    rw [getSoupRun_404 oracle₂ backoff mr₂ mr₂ 0 k (by omega) (by omega) hk
      (fun i _ hi2 => hpre i hi2) h404]
    rw [List.range_eq_range']
    simp

/-- C3 witness: with `max_retries = 3`, an always-failing connection
performs 3 attempts with two backoff sleeps of 3 time units; a 404 at
the second attempt stops after 2 attempts. -/
theorem C3_retry_contract_witness :
    getSoup oracleTrans backoff3 3 =
      (SoupResult.raised FetchErr.reqExc, 3, [3, 3]) ∧
    getSoup oracle404 backoff3 3 =
      (SoupResult.raised (FetchErr.http 404), 2, [3]) := by
  have h := C3_retry_contract oracleTrans oracle404 backoff3 3 3 1
    (by omega) (fun i _ => rfl) (fun i => by constructor <;> norm_num [backoff3])
    (by omega) rfl (fun i hi => by
      interval_cases i
      · rfl)
  exact ⟨h.1.1, h.2⟩

/-- Looking a task index up in the completion-ordered results gives
that task's value. -/
lemma threadJoin_lookup {α β : Type} (f : α → β) (xs : List α) :
    ∀ (σ : List Nat), (∀ j ∈ σ, j < xs.length) → ∀ i ∈ σ,
      (σ.filterMap (fun j => (xs[j]?).map (fun x => (j, f x)))).lookup i =
        (xs[i]?).map f := by
  intro σ
  induction σ with
  | nil => intro _ i hi; cases hi
  | cons j σ ih =>
      intro hb i hi
      have hj : j < xs.length := hb j (by simp)
      have hx : xs[j]? = some xs[j] := List.getElem?_eq_getElem hj
      by_cases hij : i = j
      · subst hij
        simp [List.filterMap_cons, hx, List.lookup]
      · have hi' : i ∈ σ := by
          rcases List.mem_cons.mp hi with h | h
          · exact absurd h hij
          · exact h
        have hbe : (i == j) = false := by simpa using hij
        simp only [List.filterMap_cons, hx, Option.map_some', List.lookup, hbe]
        exact ih (fun m hm => hb m (List.mem_cons_of_mem _ hm)) i hi'

/-- Reassembling values by index over the full index range is `map`. -/
lemma range_filterMap_getElem {α β : Type} (f : α → β) :
    ∀ (xs : List α),
      (List.range xs.length).filterMap (fun i => (xs[i]?).map f) =
        xs.map f := by
  intro xs
  induction xs with
  | nil => simp
  | cons x xs ih =>
      rw [List.length_cons, List.range_succ_eq_map, List.filterMap_cons]
      simp only [List.getElem?_cons_zero, Option.map_some', List.filterMap_map]
      rw [List.map_cons]
      congr 1
      rw [← ih]
      apply List.filterMap_congr
      intro i _
      simp [Function.comp, List.getElem?_cons_succ]

/-- `list(executor.map(f, xs))` is `xs.map f` for every completion
schedule: the workers compute pure values and the executor yields
them in submission order. -/
lemma threadJoin_eq_map {α β : Type} (f : α → β) (xs : List α)
    (σ : List Nat) (h : σ.Perm (List.range xs.length)) :
    threadJoin f xs σ = xs.map f := by
  unfold threadJoin
  have hb : ∀ j ∈ σ, j < xs.length := by
    intro j hj
    simpa [List.mem_range] using h.mem_iff.mp hj
  have hc : ∀ i ∈ List.range xs.length,
      ((σ.filterMap (fun j => (xs[j]?).map (fun x => (j, f x)))).lookup i) =
        (xs[i]?).map f := by
    intro i hi
    exact threadJoin_lookup f xs σ hb i (h.mem_iff.mpr hi)
  rw [List.filterMap_congr hc]
  exact range_filterMap_getElem f xs

/-- Both fan-out stages are schedule-independent. -/
lemma crawlTailSched_eq (w : World) (s e : String) (n : Nat)
    (sch₁ sch₂ : Nat → List Nat)
    (h₁ : ∀ m, (sch₁ m).Perm (List.range m))
    (h₂ : ∀ m, (sch₂ m).Perm (List.range m)) :
    crawlTailSched w s e n sch₁ sch₂ = crawlTail w s e n := by
  simp only [crawlTailSched, crawlTail, collectedUrls, extractedData]
  rw [threadJoin_eq_map _ _ _ ((h₁ _).trans (by simp))]
  rw [threadJoin_eq_map _ _ _ ((h₂ _).trans (by simp))]

/-- C10: for a fixed `World`, `crawl` is fully deterministic in
content and order.  The concurrent fan-outs are equivalent to
sequential maps — `crawlSched`, which runs both `ThreadPoolExecutor`
fan-outs under arbitrary completion schedules, returns exactly what
`crawl` returns — and a successful crawl's rows are exactly the
non-`None` extraction results over the flattened URL list
(`collectedUrls`: index pages ascending, title blocks in document
order), in that order. -/
theorem C10_deterministic_order (w : World) (s : String)
    (sch₁ sch₂ : Nat → List Nat)
    (h₁ : ∀ m, (sch₁ m).Perm (List.range m))
    (h₂ : ∀ m, (sch₂ m).Perm (List.range m)) :
    crawlSched w s sch₁ sch₂ = crawl w s ∧
    ∀ rs, crawl w s = CrawlOutcome.ret (some rs) →
      ∃ n, extractTotalPages
          ((((findAllList isBtnWide ((w (MAIN_URL ++ "bbs/" ++ s)).getD
              NodeList.nil)).find?
            (fun b => containsStr (nodeText b) "上頁")).bind hrefOf).getD "")
          s = some n ∧
        rs = extractedData w s
          (collectedUrls w (MAIN_URL ++ "bbs/" ++ s) n) := by
  constructor
  · simp only [crawlSched, crawl]
    split
    · rfl
    · split
      · rfl
      · split
        · rfl
        · split
          · rfl
          · exact crawlTailSched_eq w s _ _ sch₁ sch₂ h₁ h₂
  · intro rs h
    simp only [crawl] at h
    split at h
    · cases h
    next ip hip =>
      split at h
      · cases h
      next block hblock =>
        split at h
        · cases h
        next fp hfp =>
          split at h
          · cases h
          next n hn =>
            refine ⟨n, ?_, ?_⟩
            · rw [show (w (MAIN_URL ++ "bbs/" ++ s)).getD NodeList.nil = ip
                from by rw [show w (MAIN_URL ++ "bbs/" ++ s) = some ip
                  from hip]; rfl]
              rw [hblock]
              simp only [Option.some_bind, hfp, Option.getD_some]
              exact hn
            · simp only [crawlTail] at h
              split_ifs at h with hu hd
              · cases h
              · cases h
              · simp only [CrawlOutcome.ret.injEq, Option.some.injEq] at h
                exact h.symm

/-- C10 witness: a reversed completion schedule for both fan-outs
yields exactly the sequential crawl on `w0`. -/
theorem C10_deterministic_order_witness :
    crawlSched w0 "test" schedRev schedRev = crawl w0 "test" :=
  (C10_deterministic_order w0 "test" schedRev schedRev
    (fun m => (List.range m).reverse_perm)
    (fun m => (List.range m).reverse_perm)).1

/-- A pattern is a prefix of itself followed by anything. -/
lemma startsWithL_append (p r : List Char) :
    startsWithL p (p ++ r) = true := by
  induction p with
  | nil => rfl
  | cons c p ih => simp [startsWithL, ih]

/-- `startsWithL` characterizes prefix decompositions. -/
lemma startsWithL_iff (p l : List Char) :
    startsWithL p l = true ↔ ∃ r, l = p ++ r := by
  induction p generalizing l with
  | nil => simp [startsWithL]
  | cons c p ih =>
      cases l with
      | nil =>
          simp [startsWithL]
      | cons d l =>
          simp only [startsWithL, Bool.and_eq_true, beq_iff_eq, ih,
            List.cons_append, List.cons.injEq]
          constructor
          · rintro ⟨rfl, r, rfl⟩; exact ⟨r, rfl, rfl⟩
          · rintro ⟨r, rfl, rfl⟩; exact ⟨rfl, r, rfl⟩

/-- `takeWhile` stops exactly at the first failing element. -/
lemma takeWhile_all_append (q : Char → Bool) :
    ∀ (l₁ : List Char) (x : Char) (l₂ : List Char),
      (∀ c ∈ l₁, q c = true) → q x = false →
      (l₁ ++ x :: l₂).takeWhile q = l₁ := by
  intro l₁
  induction l₁ with
  | nil => intro x l₂ _ hx; simp [List.takeWhile_cons, hx]
  | cons c l ih =>
      intro x l₂ h hx
      simp only [List.cons_append, List.takeWhile_cons, h c (by simp),
        if_true, List.cons.injEq, true_and]
      exact ih x l₂ (fun d hd => h d (by simp [hd])) hx

/-- The scan matches at offset 0 of `index<ds>.html<post>`. -/
lemma extractIndexMatch_at_zero (ds post : List Char) (hne : ds ≠ [])
    (hdig : ∀ c ∈ ds, c.isDigit = true) :
    extractIndexMatch ("index".data ++ ds ++ ".html".data ++ post) =
      some ds := by
  have hsplit : "index".data ++ ds ++ ".html".data ++ post =
      'i' :: ('n' :: ('d' :: ('e' :: ('x' ::
        (ds ++ ('.' :: ("html".data ++ post))))))) := by
    simp [List.append_assoc]
  rw [hsplit]
  rw [show extractIndexMatch ('i' :: ('n' :: ('d' :: ('e' :: ('x' ::
        (ds ++ ('.' :: ("html".data ++ post)))))))) =
      (if startsWithL "index".data ('i' :: ('n' :: ('d' :: ('e' :: ('x' ::
          (ds ++ ('.' :: ("html".data ++ post)))))))) then
        (let after := ('i' :: ('n' :: ('d' :: ('e' :: ('x' ::
          (ds ++ ('.' :: ("html".data ++ post)))))))).drop 5
         let ds' := after.takeWhile Char.isDigit
         if ds'.isEmpty then extractIndexMatch ('n' :: ('d' :: ('e' :: ('x' ::
           (ds ++ ('.' :: ("html".data ++ post)))))))
         else if startsWithL ".html".data (after.drop ds'.length) then some ds'
         else extractIndexMatch ('n' :: ('d' :: ('e' :: ('x' ::
           (ds ++ ('.' :: ("html".data ++ post))))))))
      else extractIndexMatch ('n' :: ('d' :: ('e' :: ('x' ::
        (ds ++ ('.' :: ("html".data ++ post)))))))) from rfl]
  have hsw : startsWithL "index".data ('i' :: ('n' :: ('d' :: ('e' :: ('x' ::
      (ds ++ ('.' :: ("html".data ++ post)))))))) = true := by
    have := startsWithL_append "index".data (ds ++ ('.' :: ("html".data ++ post)))
    simpa [List.append_assoc] using this
  rw [if_pos hsw]
  have hdrop : ('i' :: ('n' :: ('d' :: ('e' :: ('x' ::
      (ds ++ ('.' :: ("html".data ++ post)))))))).drop 5 =
      ds ++ ('.' :: ("html".data ++ post)) := rfl
  simp only [hdrop]
  have htake : (ds ++ ('.' :: ("html".data ++ post))).takeWhile Char.isDigit =
      ds := takeWhile_all_append Char.isDigit ds '.' ("html".data ++ post)
    hdig (by decide)
  simp only [htake]
  rw [if_neg (by simpa using hne)]
  have hdrop2 : (ds ++ ('.' :: ("html".data ++ post))).drop ds.length =
      '.' :: ("html".data ++ post) := List.drop_left ds _
  rw [hdrop2]
  rw [if_pos (by simpa using startsWithL_append ".html".data post)]

/-- A failed match at offset 0 makes the scan move one position on. -/
lemma extractIndexMatch_cons_of_not (c : Char) (cs : List Char)
    (h : indexMatchAt (c :: cs) 0 = false) :
    extractIndexMatch (c :: cs) = extractIndexMatch cs := by
  unfold indexMatchAt at h
  simp only [List.drop_zero, Nat.zero_add] at h
  simp only [extractIndexMatch]
  by_cases h1 : startsWithL "index".data (c :: cs) = true
  · rw [if_pos h1]
    rw [h1] at h
    simp only [Bool.true_and] at h
    by_cases h2 : (((c :: cs).drop 5).takeWhile Char.isDigit).isEmpty = true
    · rw [if_pos h2]
    · have h2' : (!(((c :: cs).drop 5).takeWhile Char.isDigit).isEmpty) =
          true := by simpa using h2
      rw [h2'] at h
      simp only [Bool.true_and] at h
      rw [if_neg (by simpa using h2),
        if_neg (by simp only [h]; exact Bool.false_ne_true)]
  · rw [if_neg h1]

/-- Shifting the match offset across a leading character. -/
lemma indexMatchAt_cons (a : Char) (cs : List Char) (ℓ : Nat) :
    indexMatchAt (a :: cs) (ℓ + 1) = indexMatchAt cs ℓ := by
  unfold indexMatchAt
  have h5 : ℓ + 1 + 5 = (ℓ + 5) + 1 := by omega
  simp [h5, List.drop_succ_cons]

/-- The scan returns the digit run of the leftmost occurrence of
`index<digits>.html`. -/
lemma extractIndexMatch_leftmost :
    ∀ (pre ds post : List Char),
      ds ≠ [] → (∀ c ∈ ds, c.isDigit = true) →
      (∀ ℓ, ℓ < pre.length →
        indexMatchAt
          (pre ++ "index".data ++ ds ++ ".html".data ++ post) ℓ = false) →
      extractIndexMatch (pre ++ "index".data ++ ds ++ ".html".data ++ post) =
        some ds := by
  intro pre
  induction pre with
  | nil =>
      intro ds post hne hdig _
      simpa using extractIndexMatch_at_zero ds post hne hdig
  | cons a pre ih =>
      intro ds post hne hdig hfirst
      have hshape : (a :: pre) ++ "index".data ++ ds ++ ".html".data ++ post =
          a :: (pre ++ "index".data ++ ds ++ ".html".data ++ post) := by
        simp
      rw [hshape]
      rw [extractIndexMatch_cons_of_not a _ (by
        have h0 := hfirst 0 (by simp)
        rw [hshape] at h0
        exact h0)]
      apply ih ds post hne hdig
      intro ℓ hℓ
      have hs := hfirst (ℓ + 1) (by simp only [List.length_cons]; omega)
      rw [hshape] at hs
      rw [← indexMatchAt_cons a _ ℓ]
      exact hs

/-- C6 counterexample: the claim quantifies over every substring of
digits preceded by `index` and followed by `.html`; the href
`index2.htmlindex3.html` contains such a substring denoting 3, yet
page-count extraction returns 2 (the leftmost match), not 3. -/
theorem C6_counterexample :
    ("index2.htmlindex3.html" : String).data =
      "index2.html".data ++ "index".data ++ "3".data ++ ".html".data ++
        ([] : List Char) ∧
    ("3".data.all Char.isDigit = true ∧ "3".data ≠ []) ∧
    digitsToNat "3".data = 3 ∧
    extractTotalPages "index2.htmlindex3.html" "KMT" = some 2 ∧
    extractTotalPages "index2.htmlindex3.html" "KMT" ≠ some 3 :=
  ⟨by decide, ⟨by decide, by decide⟩, by decide, by decide, by decide⟩

/-- C6 amended: for every navigation href whose leftmost occurrence
of the pattern — digits immediately preceded by `index` and
immediately followed by `.html` — denotes the integer `N`
(`indexMatchAt` describes an occurrence; the hypotheses say the
decomposition at `pre` is the leftmost one), page-count extraction
returns exactly `N` when `N` is positive, and fails (returns the
failure value `none`) when the parsed value is 0 (e.g.
`index0.html`). -/
theorem C6_pagecount_extraction (href sub : String) (N : Nat)
    (pre ds post : List Char)
    (hdec : href.data = pre ++ "index".data ++ ds ++ ".html".data ++ post)
    (hne : ds ≠ []) (hdig : ∀ c ∈ ds, c.isDigit = true)
    (hfirst : ∀ ℓ, ℓ < pre.length → indexMatchAt href.data ℓ = false)
    (hN : digitsToNat ds = N) :
    (0 < N → extractTotalPages href sub = some N) ∧
    (N = 0 → extractTotalPages href sub = none) := by
  have hm : extractIndexMatch href.data = some ds := by
    rw [hdec]
    apply extractIndexMatch_leftmost pre ds post hne hdig
    intro ℓ hℓ
    rw [← hdec]
    exact hfirst ℓ hℓ
  unfold extractTotalPages
  rw [hm]
  constructor
  · intro h
    have hng : ¬ digitsToNat ds ≤ 0 := by omega
    simp [hng, hN]
    omega
  · intro h
    simp [hN, h]

/-- C6 witness: a real previous-page href. -/
theorem C6_pagecount_extraction_witness :
    extractTotalPages "/bbs/KMT/index497.html" "KMT" = some 497 :=
  (C6_pagecount_extraction "/bbs/KMT/index497.html" "KMT" 497
    "/bbs/KMT/".data "497".data [] (by decide) (by decide) (by decide)
    (by decide) (by decide)).1 (by omega)
